import Mathlib

/-!
Verification of the procedural-noise background compositor and the ACES
composite pass of `CubeVisualization.tsx`, against the repository
specification.  The GLSL fragment shaders are shallowly embedded over the
real numbers: GLSL floats become `ℝ`, `vec2` becomes `ℝ × ℝ`, and colors
become the `RGB` structure below.
-/

noncomputable section

open Real

/-- GLSL `fract(x) = x - floor(x)`. -/
def fractG (x : ℝ) : ℝ := Int.fract x

/-- GLSL `clamp(x, lo, hi)`. -/
def clampG (x lo hi : ℝ) : ℝ := min (max x lo) hi

/-- GLSL `mix(a, b, t) = a * (1 - t) + b * t`. -/
def mixG (a b t : ℝ) : ℝ := a * (1 - t) + b * t

/-- GLSL `length` of a 2-vector. -/
def lengthG (v : ℝ × ℝ) : ℝ := Real.sqrt (v.1 ^ 2 + v.2 ^ 2)

/-- `random(pos)` of the fragment shader:
`fract(sin(dot(pos.xy, vec2(13.9898, 78.233))) * 43758.5453123)`. -/
def random (pos : ℝ × ℝ) : ℝ :=
  fractG (Real.sin (pos.1 * 13.9898 + pos.2 * 78.233) * 43758.5453123)

/-- The smoothing polynomial `t * t * (3 - 2 * t)` applied per axis in `noise`
(`vec2 u = f * f * (3.0 - 2.0 * f)`). -/
def smoothW (t : ℝ) : ℝ := t * t * (3 - 2 * t)

/-- `noise(pos)` of the fragment shader: value noise over the unit lattice,
written in the source as the single expression
`mix(a, b, u.x) + (c - a) * u.y * (1.0 - u.x) + (d - b) * u.x * u.y`. -/
def noise (pos : ℝ × ℝ) : ℝ :=
  let i : ℝ × ℝ := ((⌊pos.1⌋ : ℝ), (⌊pos.2⌋ : ℝ))
  let f : ℝ × ℝ := (fractG pos.1, fractG pos.2)
  let a := random (i + (0, 0))
  let b := random (i + (1, 0))
  let c := random (i + (0, 1))
  let d := random (i + (1, 1))
  let u : ℝ × ℝ := (smoothW f.1, smoothW f.2)
  mixG a b u.1 + (c - a) * u.2 * (1 - u.1) + (d - b) * u.1 * u.2

/-- The reference nested bilinear form of value noise described by the
specification: `mix(mix(a, b, u.x), mix(c, d, u.x), u.y)` over the same four
corner values and the same smoothed weights. -/
def noiseSpec (pos : ℝ × ℝ) : ℝ :=
  let i : ℝ × ℝ := ((⌊pos.1⌋ : ℝ), (⌊pos.2⌋ : ℝ))
  let f : ℝ × ℝ := (fractG pos.1, fractG pos.2)
  let a := random (i + (0, 0))
  let b := random (i + (1, 0))
  let c := random (i + (0, 1))
  let d := random (i + (1, 1))
  let u : ℝ × ℝ := (smoothW f.1, smoothW f.2)
  mixG (mixG a b u.1) (mixG c d u.1) u.2

/-- The rotation part of the inter-octave transform:
`mat2 rot = mat2(cos(0.5), sin(0.5), -sin(0.5), cos(0.5))` applied to a
vector (GLSL matrices are column-major). -/
def rotG (p : ℝ × ℝ) : ℝ × ℝ :=
  (Real.cos 0.5 * p.1 - Real.sin 0.5 * p.2,
   Real.sin 0.5 * p.1 + Real.cos 0.5 * p.2)

/-- One inter-octave domain transform of `fbm`:
`pos = rot * pos * 2.0 + shift` with `shift = vec2(100.0)`. -/
def octStep (p : ℝ × ℝ) : ℝ × ℝ :=
  ((rotG p).1 * 2 + 100, (rotG p).2 * 2 + 100)

/-- `dir = mod(float(i), 2.0) > 0.5 ? 1.0 : -1.0` in the `fbm` loop. -/
def dirSign (i : ℕ) : ℝ := if i % 2 = 1 then 1 else -1

/-- The time-drifted sampling position of octave `i`:
`pos - 0.05 * dir * time` (a scalar subtracted componentwise). -/
def octDrift (time : ℝ) (i : ℕ) (p : ℝ × ℝ) : ℝ × ℝ :=
  (p.1 - 0.05 * dirSign i * time, p.2 - 0.05 * dirSign i * time)

/-- The `fbm` loop, by recursion on the number of remaining octaves `n`,
carrying the current octave index `i`, sampling position and amplitude. -/
def fbmGo (time : ℝ) : ℕ → ℕ → ℝ × ℝ → ℝ → ℝ
  | 0, _, _, _ => 0
  | n + 1, i, p, a =>
      a * noise (octDrift time i p) + fbmGo time n (i + 1) (octStep p) (a * 0.5)

/-- `fbm` with `nOct` octaves: `v` starts at `0`, the amplitude at `0.5`. -/
def fbmN (nOct : ℕ) (time : ℝ) (p : ℝ × ℝ) : ℝ := fbmGo time nOct 0 p 0.5

/-- `fbm` as compiled in the current revision: `NUM_OCTAVES` is 6. -/
def fbm (time : ℝ) (p : ℝ × ℝ) : ℝ := fbmN 6 time p

/-- The sampling position of octave `i`: `i` applications of the
inter-octave transform to the initial position. -/
def octPos : ℕ → ℝ × ℝ → ℝ × ℝ
  | 0, p => p
  | n + 1, p => octStep (octPos n p)

/-- An RGB color (a GLSL `vec3` used as a color). -/
structure RGB where
  r : ℝ
  g : ℝ
  b : ℝ

/-- Componentwise `mix` of two colors by a scalar weight. -/
def mixRGB (x y : RGB) (t : ℝ) : RGB :=
  ⟨mixG x.r y.r t, mixG x.g y.g t, mixG x.b y.b t⟩

/-- Scalar times color, componentwise. -/
def scaleRGB (s : ℝ) (x : RGB) : RGB := ⟨s * x.r, s * x.g, s * x.b⟩

/-- The ordered color stops `c1..c4` of the background shader. -/
structure Palette where
  c1 : RGB
  c2 : RGB
  c3 : RGB
  c4 : RGB

/-- The color-stop constants of the current revision:
`c1 = vec3(0.2, 0.0, 0.4)`, `c2 = vec3(0.0, 0.8, 1.0)`,
`c3 = vec3(0.9, 0.1, 0.4)`, `c4 = vec3(0.0, 0.0, 0.05)`. -/
def defaultPalette : Palette :=
  ⟨⟨0.2, 0, 0.4⟩, ⟨0, 0.8, 1⟩, ⟨0.9, 0.1, 0.4⟩, ⟨0, 0, 0.05⟩⟩

/-- The divisor used to normalize screen coordinates:
`min(resolution.x, resolution.y)`, exactly as it appears in the source
(no guard is applied to it). -/
def normDivisor (res : ℝ × ℝ) : ℝ := min res.1 res.2

/-- `vec2 p = (gl_FragCoord.xy * 2.0 - resolution.xy) / min(resolution.x, resolution.y)`. -/
def screenP (fragCoord res : ℝ × ℝ) : ℝ × ℝ :=
  ((fragCoord.1 * 2 - res.1) / normDivisor res,
   (fragCoord.2 * 2 - res.2) / normDivisor res)

/-- Everything `main()` of the background shader computes: the two warp
fields `q` and `r`, the final scalar `f`, and the fragment color. -/
structure BGOut where
  q : ℝ × ℝ
  r : ℝ × ℝ
  f : ℝ
  rgb : RGB
  alpha : ℝ

/-- `main()` of the current `BackgroundSphere` fragment shader,
parameterized by the palette (the current revision compiles it with
`defaultPalette`).  `length(r.x)` on a scalar is its absolute value. -/
def bgMain (pal : Palette) (fragCoord : ℝ × ℝ) (time : ℝ) (res : ℝ × ℝ) : BGOut :=
  let p := screenP fragCoord res
  let time2 := time * 0.2
  let q : ℝ × ℝ :=
    (fbm time (p.1 + 0.00 * time2, p.2 + 0.00 * time2), fbm time (p + (1, 1)))
  let r : ℝ × ℝ :=
    (fbm time (p.1 + 1.0 * q.1 + 1.7 + 0.15 * time2, p.2 + 1.0 * q.2 + 1.2 + 0.15 * time2),
     fbm time (p.1 + 1.0 * q.1 + 8.3 + 0.126 * time2, p.2 + 1.0 * q.2 + 2.8 + 0.126 * time2))
  let f := fbm time (p + r)
  let color0 := mixRGB pal.c1 pal.c2 (clampG (f * f * 4.0) 0 1)
  let color1 := mixRGB color0 pal.c3 (clampG (lengthG q) 0 1)
  let color2 := mixRGB color1 pal.c4 (clampG |r.1| 0 1)
  let color3 := scaleRGB (f * f * f * 1.5 + 0.5 * f) color2
  ⟨q, r, f, ⟨color3.r ^ 3 * 6, color3.g ^ 3 * 6, color3.b ^ 3 * 6⟩, 1⟩

/-- One frame of the frame driver: the shader is evaluated independently at
each pixel coordinate with the same frame context (time, resolution). -/
def renderFrame (coords : List (ℝ × ℝ)) (time : ℝ) (res : ℝ × ℝ) : List BGOut :=
  coords.map fun c => bgMain defaultPalette c time res

/-- `p` of the intermediate revision:
`(gl_FragCoord.xy * 3.0 - resolution.xy) / min(resolution.x, resolution.y)`
followed by `p -= vec2(12.0, 0.0)`. -/
def legacyP (fragCoord res : ℝ × ℝ) : ℝ × ℝ :=
  ((fragCoord.1 * 3 - res.1) / normDivisor res - 12,
   (fragCoord.2 * 3 - res.2) / normDivisor res - 0)

/-- `q` of the intermediate revision (its `time2` is the constant `100.0`). -/
def legacyQ (fragCoord : ℝ × ℝ) (time : ℝ) (res : ℝ × ℝ) : ℝ × ℝ :=
  let p := legacyP fragCoord res
  (fbm time (p.1 + 0.00 * 100, p.2 + 0.00 * 100), fbm time (p + (1, 1)))

/-- `r` of the intermediate revision. -/
def legacyR (fragCoord : ℝ × ℝ) (time : ℝ) (res : ℝ × ℝ) : ℝ × ℝ :=
  let p := legacyP fragCoord res
  let q := legacyQ fragCoord time res
  (fbm time (p.1 + 1.0 * q.1 + 1.7 + 0.15 * 100, p.2 + 1.0 * q.2 + 1.2 + 0.15 * 100),
   fbm time (p.1 + 1.0 * q.1 + 8.3 + 0.126 * 100, p.2 + 1.0 * q.2 + 2.8 + 0.126 * 100))

/-- `f` of the intermediate revision. -/
def legacyF (fragCoord : ℝ × ℝ) (time : ℝ) (res : ℝ × ℝ) : ℝ :=
  let p := legacyP fragCoord res
  let r := legacyR fragCoord time res
  fbm time (p + r)

/-- MIX 1 weight of the intermediate revision: `clamp((f * f) * 5.5, 1.2, 15.5)`. -/
def legacyW1 (fragCoord : ℝ × ℝ) (time : ℝ) (res : ℝ × ℝ) : ℝ :=
  clampG (legacyF fragCoord time res * legacyF fragCoord time res * 5.5) 1.2 15.5

/-- MIX 2 weight of the intermediate revision: `clamp(length(q), 2.0, 2.0)`. -/
def legacyW2 (fragCoord : ℝ × ℝ) (time : ℝ) (res : ℝ × ℝ) : ℝ :=
  clampG (lengthG (legacyQ fragCoord time res)) 2 2

/-- MIX 3 weight of the intermediate revision: `clamp(length(r.x), 0.0, 5.0)`. -/
def legacyW3 (fragCoord : ℝ × ℝ) (time : ℝ) (res : ℝ × ℝ) : ℝ :=
  clampG |(legacyR fragCoord time res).1| 0 5

/-- `luminance(v) = dot(v, vec3(0.2126, 0.7152, 0.0722))` of the composite shader. -/
def luminance (v : RGB) : ℝ := v.r * 0.2126 + v.g * 0.7152 + v.b * 0.0722

/-- The scalar ACES v1 (Narkowicz) tone-map curve of the composite shader,
applied per channel: `clamp((x * (a * x + b)) / (x * (c * x + d) + e), 0.0, 1.0)`
with `a = 2.51`, `b = 0.03`, `c = 2.43`, `d = 0.59`, `e = 0.14`. -/
def toneMapACES1 (x : ℝ) : ℝ :=
  clampG ((x * (2.51 * x + 0.03)) / (x * (2.43 * x + 0.59) + 0.14)) 0 1

/-- `toneMapACES` applied to a color, componentwise as in the source. -/
def toneMapACES (v : RGB) : RGB :=
  ⟨toneMapACES1 v.r, toneMapACES1 v.g, toneMapACES1 v.b⟩

/-- `main()` of the composite pass.  The five base-texture taps and the
bloom-texture tap are its inputs (texture sampling is external). -/
def compositeMain (center left right up down bloom : RGB) : RGB × ℝ :=
  let sharpness : ℝ := 0.15
  let baseRGB : RGB :=
    ⟨center.r + sharpness * (4.0 * center.r - left.r - right.r - up.r - down.r),
     center.g + sharpness * (4.0 * center.g - left.g - right.g - up.g - down.g),
     center.b + sharpness * (4.0 * center.b - left.b - right.b - up.b - down.b)⟩
  let glintThreshold : ℝ := 2.5
  let glintStrength : ℝ := 3.0
  let highlight := max 0.0 (luminance baseRGB - glintThreshold) * glintStrength
  let finalBloom : RGB :=
    ⟨bloom.r + baseRGB.r * highlight,
     bloom.g + baseRGB.g * highlight,
     bloom.b + baseRGB.b * highlight⟩
  let color : RGB :=
    ⟨(baseRGB.r + finalBloom.r) * 1.0,
     (baseRGB.g + finalBloom.g) * 1.0,
     (baseRGB.b + finalBloom.b) * 1.0⟩
  let mapped := toneMapACES color
  (⟨Real.rpow mapped.r (1.0 / 2.2),
    Real.rpow mapped.g (1.0 / 2.2),
    Real.rpow mapped.b (1.0 / 2.2)⟩, 1)

/-! ## Basic range lemmas -/

theorem fractG_mem (x : ℝ) : 0 ≤ fractG x ∧ fractG x < 1 :=
  ⟨Int.fract_nonneg x, Int.fract_lt_one x⟩

theorem random_mem (pos : ℝ × ℝ) : 0 ≤ random pos ∧ random pos < 1 :=
  ⟨Int.fract_nonneg _, Int.fract_lt_one _⟩

theorem smoothW_mem {t : ℝ} (h0 : 0 ≤ t) (h1 : t ≤ 1) :
    0 ≤ smoothW t ∧ smoothW t ≤ 1 := by
  unfold smoothW
  constructor
  · nlinarith
  · nlinarith [sq_nonneg (1 - t), mul_nonneg (sq_nonneg (1 - t)) h0]

theorem mixG_mem {a b t : ℝ} (ha0 : 0 ≤ a) (ha1 : a ≤ 1) (hb0 : 0 ≤ b)
    (hb1 : b ≤ 1) (ht0 : 0 ≤ t) (ht1 : t ≤ 1) :
    0 ≤ mixG a b t ∧ mixG a b t ≤ 1 := by
  unfold mixG
  constructor
  · nlinarith
  · nlinarith

theorem clampG_mem {lo hi : ℝ} (x : ℝ) (h : lo ≤ hi) :
    lo ≤ clampG x lo hi ∧ clampG x lo hi ≤ hi := by
  unfold clampG
  exact ⟨le_min (le_max_right x lo) h, min_le_right _ _⟩

theorem clampG_const (x c : ℝ) : clampG x c c = c := by
  unfold clampG
  exact le_antisymm (min_le_right _ _) (le_min (le_max_right x c) le_rfl)

/-! ## Value noise: equivalence with the nested form, range -/

theorem noise_eq_noiseSpec (pos : ℝ × ℝ) : noise pos = noiseSpec pos := by
  unfold noise noiseSpec mixG
  ring

theorem noise_mem (pos : ℝ × ℝ) : 0 ≤ noise pos ∧ noise pos ≤ 1 := by
  rw [noise_eq_noiseSpec]
  unfold noiseSpec
  have ha := random_mem (((⌊pos.1⌋ : ℝ), (⌊pos.2⌋ : ℝ)) + (0, 0))
  have hb := random_mem (((⌊pos.1⌋ : ℝ), (⌊pos.2⌋ : ℝ)) + (1, 0))
  have hc := random_mem (((⌊pos.1⌋ : ℝ), (⌊pos.2⌋ : ℝ)) + (0, 1))
  have hd := random_mem (((⌊pos.1⌋ : ℝ), (⌊pos.2⌋ : ℝ)) + (1, 1))
  have hu1 := smoothW_mem (fractG_mem pos.1).1 (le_of_lt (fractG_mem pos.1).2)
  have hu2 := smoothW_mem (fractG_mem pos.2).1 (le_of_lt (fractG_mem pos.2).2)
  have hab := mixG_mem ha.1 (le_of_lt ha.2) hb.1 (le_of_lt hb.2) hu1.1 hu1.2
  have hcd := mixG_mem hc.1 (le_of_lt hc.2) hd.1 (le_of_lt hd.2) hu1.1 hu1.2
  exact mixG_mem hab.1 hab.2 hcd.1 hcd.2 hu2.1 hu2.2

/-! ## fbm: closed form and range -/

theorem octPos_octStep (n : ℕ) (p : ℝ × ℝ) :
    octPos n (octStep p) = octStep (octPos n p) := by
  induction n with
  | zero => rfl
  | succ n ih => simp [octPos, ih]

theorem fbmGo_eq_sum (time : ℝ) (n : ℕ) :
    ∀ (i : ℕ) (p : ℝ × ℝ) (a : ℝ),
      fbmGo time n i p a =
        ∑ k in Finset.range n, a * (1 / 2) ^ k * noise (octDrift time (i + k) (octPos k p)) := by
  induction n with
  | zero => intro i p a; simp [fbmGo]
  | succ n ih =>
      intro i p a
      rw [Finset.sum_range_succ']
      simp only [fbmGo, ih (i + 1) (octStep p) (a * 0.5), octPos_octStep]
      have h0 : a * (1 / 2) ^ (0 : ℕ) * noise (octDrift time (i + 0) (octPos 0 p))
          = a * noise (octDrift time i p) := by
        simp [octPos]
      rw [h0]
      have hsum : ∀ k ∈ Finset.range n,
          a * (1 / 2) ^ (k + 1) * noise (octDrift time (i + (k + 1)) (octPos (k + 1) p))
          = a * 0.5 * (1 / 2) ^ k * noise (octDrift time (i + 1 + k) (octStep (octPos k p))) := by
        intro k _
        have hidx : i + (k + 1) = i + 1 + k := by omega
        simp only [octPos, hidx]
        ring
      rw [Finset.sum_congr rfl hsum]
      ring

theorem fbmGo_bounds (time : ℝ) (n : ℕ) :
    ∀ (i : ℕ) (p : ℝ × ℝ) (a : ℝ), 0 ≤ a →
      0 ≤ fbmGo time n i p a ∧ fbmGo time n i p a ≤ 2 * a * (1 - (1 / 2) ^ n) := by
  induction n with
  | zero => intro i p a ha; simp [fbmGo]
  | succ n ih =>
      intro i p a ha
      have hrec := ih (i + 1) (octStep p) (a * 0.5) (by linarith)
      have hn := noise_mem (octDrift time i p)
      constructor
      · simp only [fbmGo]
        have := mul_nonneg ha hn.1
        linarith [hrec.1]
      · simp only [fbmGo]
        have h1 : a * noise (octDrift time i p) ≤ a := by nlinarith [hn.2]
        have h2 : fbmGo time n (i + 1) (octStep p) (a * 0.5)
            ≤ 2 * (a * 0.5) * (1 - (1 / 2) ^ n) := hrec.2
        have hpow : (1 / 2 : ℝ) ^ (n + 1) = (1 / 2) * (1 / 2) ^ n := by ring
        nlinarith [pow_nonneg (by norm_num : (0:ℝ) ≤ 1 / 2) n]

/-! ## A concrete hash value: `random (1, 0)` is strictly positive -/

set_option maxHeartbeats 2000000 in
theorem sin_139898_scaled_bounds :
    43284.11 < Real.sin 13.9898 * 43758.5453123 ∧
      Real.sin 13.9898 * 43758.5453123 < 43284.27 := by
  have hpi1 : 3.14159265358979323846 < π := Real.pi_gt_d20
  have hpi2 : π < 3.14159265358979323847 := Real.pi_lt_d20
  set y : ℝ := 9 * π / 2 - 13.9898 with hydef
  have hy1 : (0.1473669411 : ℝ) < y := by rw [hydef]; linarith
  have hy2 : y < 0.1473669412 := by rw [hydef]; linarith
  have hq1 : (0.0368417352 : ℝ) < y / 4 := by linarith
  have hq2 : y / 4 < 0.0368417353 := by linarith
  have hq0 : (0 : ℝ) < y / 4 := by linarith
  have hz2hi : (y / 4) ^ 2 < 0.00135731346 := by
    have h := mul_pos (sub_pos.mpr hq2) (show (0 : ℝ) < 0.0368417353 + y / 4 by linarith)
    nlinarith [h]
  have hz2lo : (0.00135731343 : ℝ) < (y / 4) ^ 2 := by
    have h := mul_pos (sub_pos.mpr hq1) (show (0 : ℝ) < y / 4 + 0.0368417352 by linarith)
    nlinarith [h]
  have hz2pos : (0 : ℝ) < (y / 4) ^ 2 := by positivity
  have hz4hi : (y / 4) ^ 4 < 0.000001843 := by
    have h := mul_pos (sub_pos.mpr hz2hi)
      (show (0 : ℝ) < 0.00135731346 + (y / 4) ^ 2 by linarith)
    nlinarith [h]
  have hz4lo : (0 : ℝ) ≤ (y / 4) ^ 4 := by positivity
  have habs : |y / 4| ≤ 1 := by
    rw [abs_of_pos hq0]; linarith
  have hcb := Real.cos_bound habs
  rw [abs_of_pos hq0] at hcb
  have hcb1 := (abs_le.mp hcb).1
  have hcb2 := (abs_le.mp hcb).2
  have hA1 : (0.999321247 : ℝ) < Real.cos (y / 4) := by linarith
  have hA2 : Real.cos (y / 4) < 0.999321440 := by linarith
  have hA0 : (0 : ℝ) < Real.cos (y / 4) := by linarith
  have hhalf : Real.cos (y / 2) = 2 * Real.cos (y / 4) ^ 2 - 1 := by
    have h := Real.cos_two_mul (y / 4)
    rw [show 2 * (y / 4) = y / 2 by ring] at h
    exact h
  have hB1 : (0.997285909 : ℝ) < Real.cos (y / 2) := by
    rw [hhalf]
    have h := mul_pos (sub_pos.mpr hA1)
      (show (0 : ℝ) < Real.cos (y / 4) + 0.999321247 by linarith)
    nlinarith [h]
  have hB2 : Real.cos (y / 2) < 0.997286681 := by
    rw [hhalf]
    have h := mul_pos (sub_pos.mpr hA2)
      (show (0 : ℝ) < 0.999321440 + Real.cos (y / 4) by linarith)
    nlinarith [h]
  have hB0 : (0 : ℝ) < Real.cos (y / 2) := by linarith
  have hfull : Real.cos y = 2 * Real.cos (y / 2) ^ 2 - 1 := by
    have h := Real.cos_two_mul (y / 2)
    rw [show 2 * (y / 2) = y by ring] at h
    exact h
  have hC1 : (0.989157927 : ℝ) < Real.cos y := by
    rw [hfull]
    have h := mul_pos (sub_pos.mpr hB1)
      (show (0 : ℝ) < Real.cos (y / 2) + 0.997285909 by linarith)
    nlinarith [h]
  have hC2 : Real.cos y < 0.989161475 := by
    rw [hfull]
    have h := mul_pos (sub_pos.mpr hB2)
      (show (0 : ℝ) < 0.997286681 + Real.cos (y / 2) by linarith)
    nlinarith [h]
  have hsin : Real.sin 13.9898 = Real.cos y := by
    have h1 := Real.sin_add_int_mul_two_pi (13.9898 - 4 * π) 2
    have h2 : (13.9898 : ℝ) - 4 * π + (2 : ℤ) * (2 * π) = 13.9898 := by
      push_cast; ring
    rw [h2] at h1
    have h3 := Real.cos_pi_div_two_sub (13.9898 - 4 * π)
    have h4 : π / 2 - (13.9898 - 4 * π) = y := by rw [hydef]; ring
    rw [h4] at h3
    exact h1.trans h3.symm
  rw [hsin]
  constructor
  · linarith
  · linarith

theorem random_one_zero_pos : 0 < random (1, 0) := by
  have h := sin_139898_scaled_bounds
  have harg : ((1 : ℝ) * 13.9898 + 0 * 78.233) = 13.9898 := by norm_num
  have hfl : ⌊Real.sin 13.9898 * 43758.5453123⌋ = (43284 : ℤ) := by
    rw [Int.floor_eq_iff]
    constructor
    · push_cast; linarith [h.1]
    · push_cast; linarith [h.2]
  have hfr : Int.fract (Real.sin 13.9898 * 43758.5453123)
      = Real.sin 13.9898 * 43758.5453123 - 43284 := by
    rw [← Int.self_sub_floor, hfl]
    norm_num
  unfold random fractG
  simp only
  rw [harg, hfr]
  linarith [h.1]

/-! ## The one-octave accumulator -/

theorem fbmN_one (time : ℝ) (p : ℝ × ℝ) :
    fbmN 1 time p = 0.5 * noise (octDrift time 0 p) := by
  simp [fbmN, fbmGo]

theorem octDrift_zero (time : ℝ) (p : ℝ × ℝ) :
    octDrift time 0 p = (p.1 + 0.05 * time, p.2 + 0.05 * time) := by
  unfold octDrift dirSign
  norm_num

theorem noise_one_zero : noise ((1 : ℝ), (0 : ℝ)) = random (1, 0) := by
  unfold noise
  simp only [Int.floor_one, Int.floor_zero]
  unfold fractG
  rw [Int.fract_one, Int.fract_zero]
  unfold smoothW mixG
  norm_num

/-! ## Claim theorems -/

/-- C1: the spec requires every color-mix interpolation weight to be clamped
to [0,1] before use.  The intermediate revision of the shader violates this:
its MIX 2 (neon) weight is `clamp(length(q), 2.0, 2.0)`, which is the
constant 2 (outside [0,1]) at every input — here evaluated at fragment
coordinate (0,0), time 0, resolution (800,600) — and its MIX 1 weight is
`clamp((f*f)*5.5, 1.2, 15.5)`, which always lies in [1.2, 15.5], never
in [0,1]. -/
theorem legacy_mix_weights_not_unit_clamped :
    legacyW2 (0, 0) 0 (800, 600) = 2 ∧
      1 < legacyW2 (0, 0) 0 (800, 600) ∧
      1.2 ≤ legacyW1 (0, 0) 0 (800, 600) ∧
      legacyW1 (0, 0) 0 (800, 600) ≤ 15.5 := by
  have h2 : legacyW2 (0, 0) 0 (800, 600) = 2 := by
    unfold legacyW2
    exact clampG_const _ 2
  have h1 := clampG_mem
    (legacyF (0, 0) 0 (800, 600) * legacyF (0, 0) 0 (800, 600) * 5.5)
    (show (1.2 : ℝ) ≤ 15.5 by norm_num)
  exact ⟨h2, by rw [h2]; norm_num, h1.1, h1.2⟩

/-- C3: the claim states that the normalizing divisor
`min(resolution.x, resolution.y)` is guarded by clamping it to a minimum
of 1.  The code applies no such guard: at the degenerate resolution
(width 0, height 600) the divisor the shader divides by is exactly 0
(hence, in GLSL float arithmetic, a division by zero), and in particular
it is not at least 1. -/
theorem normDivisor_unguarded_at_degenerate_resolution :
    normDivisor (0, 600) = 0 ∧ ¬ 1 ≤ normDivisor (0, 600) := by
  constructor <;> norm_num [normDivisor, min_def]

/-- C4: for every coordinate and time, the 6-octave fbm equals the sum over
octave indices k = 0..5 of amplitude `0.5 * (1/2)^k` times the smooth noise
at the octave-k sampling position (the k-fold rotate/scale/translate
transform of the input, drifted in time by `0.05 * time` with sign
alternating by octave parity), and consequently its value lies in
[0, 1 - 2⁻⁶]. -/
theorem fbm_is_weighted_octave_sum_in_range (time : ℝ) (p : ℝ × ℝ) :
    fbm time p =
      ∑ k in Finset.range 6, 0.5 * (1 / 2) ^ k * noise (octDrift time k (octPos k p)) ∧
      0 ≤ fbm time p ∧ fbm time p ≤ 1 - (1 / 2) ^ 6 := by
  refine ⟨?_, ?_, ?_⟩
  · have h := fbmGo_eq_sum time 6 0 p 0.5
    simpa [fbm, fbmN] using h
  · exact (fbmGo_bounds time 6 0 p 0.5 (by norm_num)).1
  · have h := (fbmGo_bounds time 6 0 p 0.5 (by norm_num)).2
    calc fbm time p = fbmGo time 6 0 p 0.5 := rfl
      _ ≤ 2 * 0.5 * (1 - (1 / 2) ^ 6) := h
      _ = 1 - (1 / 2) ^ 6 := by norm_num

/-- C5: the shader's single-expression form of value noise,
`mix(a, b, u.x) + (c - a) * u.y * (1 - u.x) + (d - b) * u.x * u.y`,
equals the reference nested bilinear form
`mix(mix(a, b, u.x), mix(c, d, u.x), u.y)`, and since the four corner
values (outputs of `random`) lie in [0,1], the noise output lies in [0,1]. -/
theorem noise_equals_nested_bilinear_and_unit_range (pos : ℝ × ℝ) :
    noise pos = noiseSpec pos ∧ 0 ≤ noise pos ∧ noise pos ≤ 1 :=
  ⟨noise_eq_noiseSpec pos, (noise_mem pos).1, (noise_mem pos).2⟩

/-- C6: determinism / purity of the per-pixel evaluation: within a frame the
output at a pixel is a function of that pixel's own coordinate and the shared
frame context only.  If two frames (or two invocations of the same frame)
contain the same coordinate at positions i and j, the rendered outputs at
those positions are identical — no state leaks between pixel evaluations. -/
theorem renderFrame_deterministic_pixel_local (cs1 cs2 : List (ℝ × ℝ))
    (time : ℝ) (res : ℝ × ℝ) (i j : ℕ) (h : cs1[i]? = cs2[j]?) :
    (renderFrame cs1 time res)[i]? = (renderFrame cs2 time res)[j]? := by
  unfold renderFrame
  rw [List.getElem?_map, List.getElem?_map, h]

/-- C6 witness: concrete frames sharing the coordinate (3,4) at positions
1 and 0 render identical outputs there. -/
theorem renderFrame_deterministic_pixel_local_witness :
    (renderFrame [(0, 0), (3, 4)] 1 (800, 600))[1]? =
      (renderFrame [(3, 4)] 1 (800, 600))[0]? :=
  renderFrame_deterministic_pixel_local [(0, 0), (3, 4)] [(3, 4)] 1 (800, 600) 1 0 rfl

/-- C8 counterexample: the claim says that with octaveCount = 1 the fbm
accumulator returns exactly the base smooth-noise value.  At coordinate
(1,0) and time 0 (where the time drift vanishes) the one-octave fbm is
`0.5 * noise (1,0)` while `noise (1,0) = random (1,0) > 0`, so the two
values differ. -/
theorem fbm_single_octave_counterexample :
    fbmN 1 0 ((1 : ℝ), (0 : ℝ)) ≠ noise ((1 : ℝ), (0 : ℝ)) := by
  have h1 : fbmN 1 0 ((1 : ℝ), (0 : ℝ)) = 0.5 * noise ((1 : ℝ), (0 : ℝ)) := by
    rw [fbmN_one, octDrift_zero]
    norm_num
  rw [h1, noise_one_zero]
  have h2 := random_one_zero_pos
  intro h
  nlinarith

/-- C8 amended: with octaveCount = 1 the fbm accumulator returns the initial
amplitude 0.5 times the base smooth-noise value at the time-drifted
coordinate (octave 0 has dir = -1, so the drift is +0.05·time per axis);
there is no fractal accumulation beyond that single weighted octave. -/
theorem fbm_single_octave_is_half_noise (time : ℝ) (p : ℝ × ℝ) :
    fbmN 1 time p = 0.5 * noise (p.1 + 0.05 * time, p.2 + 0.05 * time) := by
  rw [fbmN_one, octDrift_zero]

/-- C9: palette separation: the scalar fields q, r and f computed by the
background compositor are identical under any two palettes — replacing the
ordered color-stop list never feeds back into field generation. -/
theorem palette_swap_preserves_scalar_fields (pal1 pal2 : Palette)
    (fragCoord : ℝ × ℝ) (time : ℝ) (res : ℝ × ℝ) :
    (bgMain pal1 fragCoord time res).q = (bgMain pal2 fragCoord time res).q ∧
      (bgMain pal1 fragCoord time res).r = (bgMain pal2 fragCoord time res).r ∧
      (bgMain pal1 fragCoord time res).f = (bgMain pal2 fragCoord time res).f :=
  ⟨rfl, rfl, rfl⟩

theorem toneMapACES1_mem (x : ℝ) : 0 ≤ toneMapACES1 x ∧ toneMapACES1 x ≤ 1 := by
  unfold toneMapACES1
  exact clampG_mem _ (by norm_num)

theorem rpow_gamma_mem {x : ℝ} (h0 : 0 ≤ x) (h1 : x ≤ 1) :
    0 ≤ Real.rpow x (1.0 / 2.2) ∧ Real.rpow x (1.0 / 2.2) ≤ 1 :=
  ⟨Real.rpow_nonneg h0 _, Real.rpow_le_one h0 h1 (by norm_num)⟩

/-- C10: for every input color (including HDR values above 1), the ACES
tone-map curve returns a value clamped to [0,1]; consequently every RGB
channel of the composite pass's final fragment (after the 1/2.2 gamma power)
lies in [0,1], and its alpha is exactly 1. -/
theorem composite_output_in_unit_range (center left right up down bloom : RGB) :
    (∀ x : ℝ, 0 ≤ toneMapACES1 x ∧ toneMapACES1 x ≤ 1) ∧
      (0 ≤ (compositeMain center left right up down bloom).1.r ∧
        (compositeMain center left right up down bloom).1.r ≤ 1) ∧
      (0 ≤ (compositeMain center left right up down bloom).1.g ∧
        (compositeMain center left right up down bloom).1.g ≤ 1) ∧
      (0 ≤ (compositeMain center left right up down bloom).1.b ∧
        (compositeMain center left right up down bloom).1.b ≤ 1) ∧
      (compositeMain center left right up down bloom).2 = 1 := by
  refine ⟨toneMapACES1_mem, ?_, ?_, ?_, rfl⟩
  · exact rpow_gamma_mem (toneMapACES1_mem _).1 (toneMapACES1_mem _).2
  · exact rpow_gamma_mem (toneMapACES1_mem _).1 (toneMapACES1_mem _).2
  · exact rpow_gamma_mem (toneMapACES1_mem _).1 (toneMapACES1_mem _).2
